import Mathlib

/-!
Verification of the OreillyBooksOnline retrieval-and-transform pipeline
(`src/OReillyBooksOnline.py`) against its specification.

The Python source is shallowly embedded: every fallible operation returns
`Except`/`Option`, the dynamic `SimpleNamespace` attribute bags become
records, `lxml` element trees become the `XTree`/`XForest` mutual
inductive, and JSON values become the `PyJson` inductive.  The recursive
paginated fetch is embedded with explicit fuel (the Python recursion has
no bound; fuel exhaustion models non-termination, never a result).
-/

/-! ## Python JSON values -/


/-- A Python value as produced by `json` decoding: the universe over which
`retrieve_json` operates.  Dict entries keep insertion order, as Python
dicts do. -/
inductive PyJson where
  | null
  | bool (b : Bool)
  | num (n : Int)
  | str (s : String)
  | list (xs : List PyJson)
  | dict (kvs : List (String × PyJson))

/-- Python truthiness test (`if not result.json['next']`): `None`, `False`,
`0`, `''`, `[]` and `{}` are falsy. -/
def pyFalsy : PyJson → Bool
  | .null => true
  | .bool b => !b
  | .num n => n == 0
  | .str s => s.isEmpty
  | .list xs => xs.isEmpty
  | .dict kvs => kvs.isEmpty

/-- Dictionary key lookup (`d[k]`); Python dicts have unique keys, so the
first entry wins. -/
def dictLookup (kvs : List (String × PyJson)) (k : String) : Option PyJson :=
  (kvs.find? (fun kv => kv.1 == k)).map (fun kv => kv.2)

/-- The exact key set of a pagination envelope, from
`set(result.json.keys()) == {'count', 'next', 'previous', 'results'}`. -/
def envKeys : List String := ["count", "next", "previous", "results"]

/-- Python set equality between the keys of `kvs` and `envKeys`. -/
def isEnvelopeKeys (kvs : List (String × PyJson)) : Bool :=
  (envKeys.all (fun k => (kvs.map Prod.fst).contains k)) &&
  ((kvs.map Prod.fst).all (fun k => envKeys.contains k))

/-- Python `+` on the values that occur here: succeeds for list/str/int
(and bools, which are ints); anything else raises `TypeError` (`none`). -/
def pyAdd : PyJson → PyJson → Option PyJson
  | .num a, .num b => some (.num (a + b))
  | .num a, .bool b => some (.num (a + (if b then 1 else 0)))
  | .bool a, .num b => some (.num ((if a then 1 else 0) + b))
  | .bool a, .bool b => some (.num ((if a then 1 else 0) + (if b then 1 else 0)))
  | .str a, .str b => some (.str (a ++ b))
  | .list a, .list b => some (.list (a ++ b))
  | _, _ => none

/-- Embedding of `OreillyBooksOnline.retrieve_json`.  `net` maps a URL to
the decoded JSON body of a successful GET request (`none` models a failed
request or a non-JSON response, both of which abort the Python run).
A response that is a dict with exactly the envelope keys is treated as a
page: if its `next` value is falsy its `results` value is returned,
otherwise the fetch recurses on `next` (which must be a string URL) and
concatenates with Python `+`.  Any other response is returned unchanged.
`fuel` bounds the recursion depth; running out of fuel yields `none` and
never a value. -/
def retrieve_json (net : String → Option PyJson) : Nat → String → Option PyJson
  | 0, _ => none
  | fuel + 1, url =>
    match net url with
    | none => none
    | some j =>
      match j with
      | .dict kvs =>
        if isEnvelopeKeys kvs then
          match dictLookup kvs "next", dictLookup kvs "results" with
          | some nxt, some results =>
            if pyFalsy nxt then some results
            else
              match nxt with
              | .str u =>
                match retrieve_json net fuel u with
                | none => none
                | some rest => pyAdd results rest
              | _ => none
          | _, _ => none
        else some j
      | _ => some j

/-- One page envelope with a list of result records, as returned by the
collection endpoints. -/
structure PageEnv where
  count : PyJson
  next : PyJson
  previous : PyJson
  results : List PyJson

/-- The JSON dict a `PageEnv` decodes from. -/
def PageEnv.toJson (p : PageEnv) : PyJson :=
  .dict [("count", p.count), ("next", p.next), ("previous", p.previous),
         ("results", .list p.results)]

/-- A well-formed envelope chain rooted at its first URL: the network
returns each page at its URL, every page's `next` is the (nonempty) URL of
the following page, and the last page's `next` is null. -/
def chainWF (net : String → Option PyJson) : List (String × PageEnv) → Prop
  | [] => True
  | (u, p) :: rest =>
    net u = some p.toJson ∧
    (match rest with
     | [] => p.next = PyJson.null
     | (u2, _) :: _ => p.next = PyJson.str u2 ∧ u2 ≠ "") ∧
    chainWF net rest

/-- Concrete two-page network used to witness the pagination theorem. -/
def demoNet : String → Option PyJson := fun u =>
  if u = "page1" then
    some (PageEnv.toJson ⟨.num 3, .str "page2", .null, [.str "r1", .str "r2"]⟩)
  else if u = "page2" then
    some (PageEnv.toJson ⟨.num 3, .null, .str "page1", [.str "r3"]⟩)
  else none

/-! ## URL parsing (`urllib.parse.urlparse` / `.geturl()`)

The chapter rewrite inspects references through `urlparse` and reassembles
them with `ParseResult.geturl` (`urlunparse`); both are embedded below
following the CPython algorithm. -/

/-- The six components of a `ParseResult`. -/
structure UrlP where
  scheme : String
  netloc : String
  path : String
  params : String
  query : String
  fragment : String
deriving Repr, DecidableEq

/-- Split a character list at the first occurrence of `c` (the occurrence
itself is dropped), or `none` when `c` does not occur. -/
def splitOnceChar (c : Char) : List Char → Option (List Char × List Char)
  | [] => none
  | x :: xs =>
    if x = c then some ([], xs)
    else (splitOnceChar c xs).map (fun q => (x :: q.1, q.2))

/-- Characters allowed in a URL scheme after the initial letter. -/
def schemeChar (c : Char) : Bool :=
  c.isAlpha || c.isDigit || c == '+' || c == '-' || c == '.'

/-- CPython `urlsplit`: peel off `scheme:` (only when the text before the
first colon is a letter followed by scheme characters), then `//netloc`,
then the fragment after the first `#`, then the query after the first
`?`; what remains is the path. -/
def urlsplitStr (url : String) : UrlP :=
  let l := url.toList
  let sr :=
    match splitOnceChar ':' l with
    | some (before, after) =>
      if before ≠ [] &&
          (match l with | c :: _ => c.isAlpha | [] => false) &&
          before.all schemeChar
      then ((before.map Char.toLower).asString, after)
      else ("", l)
    | none => ("", l)
  let nr :=
    match sr.2 with
    | '/' :: '/' :: rest =>
      let nl := rest.takeWhile (fun c => c ≠ '/' && c ≠ '?' && c ≠ '#')
      (nl.asString, rest.drop nl.length)
    | other => ("", other)
  let fr :=
    match splitOnceChar '#' nr.2 with
    | some (before, after) => (before, after.asString)
    | none => (nr.2, "")
  let qr :=
    match splitOnceChar '?' fr.1 with
    | some (before, after) => (before, after.asString)
    | none => (fr.1, "")
  { scheme := sr.1, netloc := nr.1, path := qr.1.asString,
    params := "", query := qr.2, fragment := fr.2 }

/-- CPython `_splitparams`, applied by `urlparse` to the path: split off
`;params` looking only inside the last `/`-separated segment. -/
def splitParamsL (l : List Char) : List Char × List Char :=
  let revSeg := l.reverse.takeWhile (fun c => c ≠ '/')
  let hasSlash := l.length ≠ revSeg.length
  let seg := if hasSlash then revSeg.reverse else l
  let stem := if hasSlash then l.take (l.length - revSeg.length) else []
  match splitOnceChar ';' seg with
  | none => (l, [])
  | some (before, after) => (stem ++ before, after)

/-- CPython `urlparse`: `urlsplit` plus the params split on the path. -/
def urlparse (url : String) : UrlP :=
  let u := urlsplitStr url
  let pq := splitParamsL u.path.toList
  { u with path := pq.1.asString, params := pq.2.asString }

/-- `s` starts with `p` (kernel-computable version of `str.startswith`). -/
def strStarts (s p : String) : Bool := p.toList.isPrefixOf s.toList

/-- `s` ends with `p` (kernel-computable version of `str.endswith`). -/
def strEnds (s p : String) : Bool := p.toList.reverse.isPrefixOf s.toList.reverse

/-- CPython `urlunparse`/`urlunsplit`, i.e. `ParseResult.geturl`. -/
def urlunparse (u : UrlP) : String :=
  let url0 := if u.params ≠ "" then u.path ++ ";" ++ u.params else u.path
  let url1 :=
    if u.netloc ≠ "" || strStarts url0 "//" then
      "//" ++ u.netloc ++
        (if url0 ≠ "" && !(strStarts url0 "/") then "/" ++ url0 else url0)
    else url0
  let url2 := if u.scheme ≠ "" then u.scheme ++ ":" ++ url1 else url1
  let url3 := if u.query ≠ "" then url2 ++ "?" ++ u.query else url2
  if u.fragment ≠ "" then url3 ++ "#" ++ u.fragment else url3

/-! ## Element trees (`lxml.etree`)

An element holds a tag, an ordered attribute dict and an ordered list of
children; comments and text nodes occur as children.  The child list is a
separate mutual inductive (`XForest`) so that all tree recursions are
structural. -/

mutual
inductive XTree where
  | elem (tag : String) (attrs : List (String × String)) (children : XForest)
  | comment (s : String)
  | textNode (s : String)
inductive XForest where
  | nil
  | cons (hd : XTree) (tl : XForest)
end

/-- Attribute lookup (`elem.attrib[name]`). -/
def getAttr (a : List (String × String)) (k : String) : Option String :=
  (a.find? (fun kv => kv.1 == k)).map (fun kv => kv.2)

/-- Attribute assignment (`elem.attrib[name] = v`): replaces the first
binding in place, appends when the key is new (Python dict semantics). -/
def setAttr (a : List (String × String)) (k v : String) : List (String × String) :=
  match a with
  | [] => [(k, v)]
  | kv :: rest => if kv.1 == k then (k, v) :: rest else kv :: setAttr rest k v

/-- `elem.attrib.update(kvs)`: assign every pair in order. -/
def updateAttrs (a : List (String × String)) (kvs : List (String × String)) :
    List (String × String) :=
  kvs.foldl (fun acc kv => setAttr acc kv.1 kv.2) a

/-- `root.insert(0, child)`: prepend a child to an element; no-op on
non-elements (the parsed root is always an element). -/
def insertFirstChild (t : XTree) (c : XTree) : XTree :=
  match t with
  | .elem tag a cs => .elem tag a (.cons c cs)
  | x => x

/-- Update the root element's attribute dict; no-op on non-elements. -/
def updateRootAttrs (t : XTree) (kvs : List (String × String)) : XTree :=
  match t with
  | .elem tag a cs => .elem tag (updateAttrs a kvs) cs
  | x => x

mutual
/-- Apply the fallible attribute transformation `f` to every element
matched by `sel`, in document order, short-circuiting on the first error:
this is the shape of both per-rule chapter rewriting (`//tag[@attr]`
selection followed by in-place mutation) and manifest `item` rewriting. -/
def mapMatching {E : Type} (sel : String → List (String × String) → Bool)
    (f : List (String × String) → Except E (List (String × String))) :
    XTree → Except E XTree
  | .elem t a cs =>
    match (if sel t a then f a else .ok a) with
    | .error e => .error e
    | .ok a2 =>
      match mapMatchingF sel f cs with
      | .error e => .error e
      | .ok cs2 => .ok (.elem t a2 cs2)
  | x => .ok x

/-- Forest version of `mapMatching`. -/
def mapMatchingF {E : Type} (sel : String → List (String × String) → Bool)
    (f : List (String × String) → Except E (List (String × String))) :
    XForest → Except E XForest
  | .nil => .ok .nil
  | .cons c cs =>
    match mapMatching sel f c with
    | .error e => .error e
    | .ok c2 =>
      match mapMatchingF sel f cs with
      | .error e => .error e
      | .ok cs2 => .ok (.cons c2 cs2)
end

mutual
/-- Total counterpart of `mapMatching` for the error-free case: apply `g`
to every selected element's attributes. -/
def tmapMatching (sel : String → List (String × String) → Bool)
    (g : List (String × String) → List (String × String)) : XTree → XTree
  | .elem t a cs => .elem t (if sel t a then g a else a) (tmapMatchingF sel g cs)
  | x => x

/-- Forest version of `tmapMatching`. -/
def tmapMatchingF (sel : String → List (String × String) → Bool)
    (g : List (String × String) → List (String × String)) : XForest → XForest
  | .nil => .nil
  | .cons c cs => .cons (tmapMatching sel g c) (tmapMatchingF sel g cs)
end

mutual
/-- First element (in document order, the root included) whose tag and
attributes satisfy `p`: the shape of the `//*[...]` safety-net scan. -/
def findViol (p : String → List (String × String) → Bool) : XTree → Option XTree
  | .elem t a cs => if p t a then some (.elem t a cs) else findViolF p cs
  | .comment _ => none
  | .textNode _ => none

/-- Forest version of `findViol`. -/
def findViolF (p : String → List (String × String) → Bool) : XForest → Option XTree
  | .nil => none
  | .cons c cs =>
    match findViol p c with
    | some e => some e
    | none => findViolF p cs
end

mutual
/-- `Occurs s t`: the element `s` occurs in the subtree rooted at `t`
(as `t` itself or inside a descendant). -/
inductive Occurs : XTree → XTree → Prop where
  | refl (t : XTree) : Occurs t t
  | child {s : XTree} (tag : String) (attrs : List (String × String))
      {cs : XForest} : OccursF s cs → Occurs s (.elem tag attrs cs)

/-- `OccursF s cs`: `s` occurs in one of the trees of the forest `cs`. -/
inductive OccursF : XTree → XForest → Prop where
  | head {s c : XTree} (cs : XForest) : Occurs s c → OccursF s (.cons c cs)
  | tail {s : XTree} (c : XTree) {cs : XForest} : OccursF s cs → OccursF s (.cons c cs)
end

/-! ## The document model

`SimpleNamespace` attribute bags become records.  Synthesized assets
(the woff2 replacement, the container descriptor, the mimetype marker)
carry only some attributes in Python; the string fields they lack are
modelled as `""` — of the dynamically-absent attributes only `inactive`
is ever consulted (by the persistence filter), and it is modelled
exactly, as an `Option Bool` whose `none` means the attribute is absent. -/

/-- An asset's `read` payload: either raw bytes or a parsed element tree.
`doc t` stands for markup whose parse (and, after patching, whose
`etree.tostring` serialization) is `t`; byte-level parsing/serialization
itself is not modelled. -/
inductive AData where
  | bytes (s : String)
  | doc (t : XTree)

/-- One record of the `files` component collection. -/
structure FileRec where
  filename : String
  full_path : String
  url : String

/-- One record of the `chapters` component collection (with its
`related_assets.stylesheets` list). -/
structure ChapterRec where
  content_url : String
  title : String
  stylesheets : List String

/-- One asset (`book.assets` entry): the file record the fetch was keyed
by, merged with the response's content-type data and body. -/
structure Asset where
  kind : String
  url : String
  ourn : String
  full_path : String
  filename : String
  filename_ext : String
  media_type : String
  content : String
  encoding : String
  read : AData
  inactive : Option Bool

/-- The document aggregate (`book`): `info['language']`, the component
collections used by patching, and the asset list. -/
structure Book where
  language : String
  chapters : List ChapterRec
  files : List FileRec
  assets : List Asset

/-- One reference-attribute rule: `CONST.ATTRS` / `args.extra_attrs`
entries all have xpath `//tag[@name]` and validation regex `^/`. -/
structure Rule where
  tag : String
  name : String
deriving Repr, DecidableEq

/-- The two built-in rules `CONST.ATTRS`. -/
def constAttrs : List Rule := [⟨"a", "href"⟩, ⟨"img", "src"⟩]

/-- The configuration surface consumed by `_patch` (from `self.args`),
plus the exit status the external `woff2_compress` run would return
(environment of the subprocess call). -/
structure Config where
  woff2 : Bool
  cssMapSet : List PyJson
  extra_attrs : List Rule
  woff2_returncode : Int

/-- The Python exceptions the pipeline can raise. -/
inductive PErr where
  | stopIteration
  | notLocalized (e : XTree)
  | typeError
  | valueError
  | assertionError

/-- Python hashability (set elements must be hashable; dicts and lists
are not). -/
def pyHashable : PyJson → Bool
  | .dict _ => false
  | .list _ => false
  | _ => true

/-- Split a character list on every occurrence of `c` (Python
`str.split(c)` shape: never returns an empty list of segments). -/
def splitChar (c : Char) : List Char → List (List Char)
  | [] => [[]]
  | x :: xs =>
    if x = c then [] :: splitChar c xs
    else
      match splitChar c xs with
      | [] => [[x]]
      | seg :: rest => (x :: seg) :: rest

/-- `dict([(item.split(':'))])` from `__init__`: a one-entry dict when the
argument has exactly one colon, `ValueError` otherwise. -/
def cssMapEntry (item : String) : Except PErr PyJson :=
  match splitChar ':' item.toList with
  | [k, v] => .ok (.dict [(k.asString, .str v.asString)])
  | _ => .error .valueError

/-- The `__init__` set comprehension
`{dict([(item.split(':'))]) for item in self.args.css_map}`: each element
is built, then added to the set, which requires it to be hashable —
a dict never is, so any nonempty argument list raises `TypeError`. -/
def buildCssMap : List String → Except PErr (List PyJson)
  | [] => .ok []
  | item :: rest =>
    match cssMapEntry item with
    | .error e => .error e
    | .ok v =>
      if pyHashable v then
        match buildCssMap rest with
        | .error e => .error e
        | .ok vs => .ok (v :: vs)
      else .error .typeError

/-- Python `==` between a string and a set element (`full_path in css_map`
membership comparisons): a string only ever equals a string. -/
def pyStrEqJson (s : String) : PyJson → Bool
  | .str t => s == t
  | _ => false

/-- `os.path.basename`: the part after the last slash. -/
def basename (s : String) : String :=
  ((s.toList.reverse.takeWhile (fun c => c ≠ '/')).reverse).asString

/-- `os.path.dirname` (posix): everything up to the last slash, trailing
slashes stripped unless the head is all slashes. -/
def dirname (p : String) : String :=
  let l := p.toList
  let revSeg := l.reverse.takeWhile (fun c => c ≠ '/')
  if revSeg.length = l.length then ""
  else
    let head := l.take (l.length - revSeg.length)
    if head.all (fun c => c = '/') then head.asString
    else ((head.reverse.dropWhile (fun c => c = '/')).reverse).asString

/-- Join segments with `/` (for rebuilding a path from split segments). -/
def joinWithSlash : List (List Char) → List Char
  | [] => []
  | [s] => s
  | s :: rest => s ++ '/' :: joinWithSlash rest

/-- `re.sub(r'[^/]+', '..', d)`: every maximal nonempty run of
non-slash characters becomes `..`. -/
def dotsOfDir (d : String) : String :=
  (joinWithSlash ((splitChar '/' d.toList).map
    (fun seg => if seg = [] then [] else ['.', '.']))).asString

/-- `'/'.join([item for item in [pre, path] if item])`. -/
def joinSlash (a b : String) : String :=
  if a ≠ "" && b ≠ "" then a ++ "/" ++ b
  else if a ≠ "" then a else b

/-- `re.sub(r'[/.](ttf|otf)$', '.woff2', s)`: when `s` ends in a slash or
dot followed by `ttf`/`otf`, those four characters become `.woff2`. -/
def woffSub (s : String) : String :=
  if strEnds s "/ttf" || strEnds s "/otf" || strEnds s ".ttf" || strEnds s ".otf"
  then ((s.toList.take (s.toList.length - 4)) ++ ".woff2".toList).asString
  else s

/-! ## The per-asset transform (`_patch`) -/

/-- Chapter parse step: `etree.fromstring(asset.read, parser)`.  A chapter
or manifest asset carries its parsed tree as `AData.doc`; raw bytes have
no modelled parse. -/
def parseDoc : AData → Except PErr XTree
  | .doc t => .ok t
  | .bytes _ => .error .valueError

/-- The membership test of the font branch: the set
`{a.full_path | a ∈ book.assets, a.kind ∈ {font, other_asset},
a.media_type splits as font/sub with sub ≠ woff2}`. -/
def fontQual (a : Asset) : Bool :=
  (a.kind == "font" || a.kind == "other_asset") &&
  (match splitChar '/' a.media_type.toList with
   | [t, sub] => !(sub == "woff2".toList) && t == "font".toList
   | _ => false)

/-- The qualifying font paths of the book. -/
def fontPaths (book : Book) : List String :=
  book.assets.filterMap (fun a => if fontQual a then some a.full_path else none)

/-- The woff2 replacement asset: the six listed fields of the original
with the font extension substituted, the content read back from the
scratch path the original bytes were just written to, and no `inactive`
attribute.  (`kind`/`content`/`encoding` are not set by the Python code;
they are modelled as `""`.) -/
def mkWoff (asset : Asset) : Asset :=
  { kind := "", content := "", encoding := "",
    media_type := woffSub asset.media_type,
    ourn := woffSub asset.ourn,
    url := woffSub asset.url,
    full_path := woffSub asset.full_path,
    filename := woffSub asset.filename,
    filename_ext := woffSub asset.filename_ext,
    read := asset.read,
    inactive := none }

/-- The rules applied to a chapter: `CONST.ATTRS + self.args.extra_attrs`. -/
def chapterRules (cfg : Config) : List Rule := constAttrs ++ cfg.extra_attrs

/-- Selection `//r.tag[@r.name]`: elements with that tag carrying that
attribute. -/
def ruleSel (r : Rule) (tag : String) (a : List (String × String)) : Bool :=
  tag == r.tag && (getAttr a r.name).isSome

/-- The loop body over one selected element's reference (lines 181-188):
parse the attribute value; when its path is nonempty and it has no
scheme, look the basename up in `book.files` (first match;
`StopIteration` when absent) and reassemble with the path replaced by
`pre`-joined `full_path` and scheme/netloc cleared; otherwise leave the
value untouched. -/
def patchRefStep (files : List FileRec) (pre : String) (v : String) :
    Except PErr String :=
  let link := urlparse v
  if link.path ≠ "" && link.scheme == "" then
    match files.find? (fun f => f.filename == basename link.path) with
    | none => .error .stopIteration
    | some f =>
      .ok (urlunparse
        { link with scheme := "", netloc := "", path := joinSlash pre f.full_path })
  else .ok v

/-- One rule's pass over the whole subtree: rewrite the rule's attribute
on every element the rule selects. -/
def rewriteRule (files : List FileRec) (pre : String) (r : Rule) (t : XTree) :
    Except PErr XTree :=
  mapMatching (ruleSel r)
    (fun a =>
      match getAttr a r.name with
      | none => .ok a
      | some v =>
        match patchRefStep files pre v with
        | .error e => .error e
        | .ok v2 => .ok (setAttr a r.name v2))
    t

/-- All rules' passes, in configuration order. -/
def foldRules (files : List FileRec) (pre : String) :
    List Rule → XTree → Except PErr XTree
  | [], t => .ok t
  | r :: rest, t =>
    match rewriteRule files pre r t with
    | .error e => .error e
    | .ok t2 => foldRules files pre rest t2

/-- The safety-net predicate of
`//*[fn:matches(@name1, '^/') or ...]`: some configured attribute is
present and starts with a slash (the `^/` regex). -/
def violAttr (rules : List Rule) (_ : String) (a : List (String × String)) : Bool :=
  rules.any (fun r =>
    match getAttr a r.name with
    | some v => strStarts v "/"
    | none => false)

/-- The root attribute update `root.attrib.update({...})`. -/
def nsAttrUpdates (book : Book) : List (String × String) :=
  [("lang", book.language), ("xml:lang", book.language),
   ("xmlns", "http://www.w3.org/1999/xhtml"),
   ("xmlns:epub", "http://www.idpf.org/2007/ops")]

/-- The `<head>` built for a chapter: meta, title, then one stylesheet
link per declared stylesheet. -/
def chapterHead (book : Book) (asset : Asset) (chapter : ChapterRec)
    (links : XForest) : XTree :=
  .elem "head" []
    (.cons (.elem "meta"
        [("http-equiv", "Content-Type"),
         ("content", asset.content ++ "; charset=" ++ asset.encoding),
         ("lang", book.language), ("xml:lang", book.language)] .nil)
      (.cons (.elem "title" [] (.cons (.textNode chapter.title) .nil)) links))

/-- Build the stylesheet `<link>` elements: each declared stylesheet URL
must match some asset (`next(...)`, `StopIteration` when absent). -/
def mkCssLinks (book : Book) (pre : String) : List String → Except PErr XForest
  | [] => .ok .nil
  | css :: rest =>
    match book.assets.find? (fun a => a.url == css) with
    | none => .error .stopIteration
    | some file =>
      match mkCssLinks book pre rest with
      | .error e => .error e
      | .ok links =>
        .ok (.cons (.elem "link"
            [("rel", "stylesheet"), ("type", file.media_type),
             ("href", joinSlash pre file.full_path)] .nil) links)

/-- The chapter branch up to (and including) the reference-rewrite loops:
parse, update root attributes, insert the built `<head>` first, then run
every rule's rewrite pass. -/
def chapterRewritten (cfg : Config) (book : Book) (asset : Asset) :
    Except PErr XTree :=
  let pre := dotsOfDir (dirname asset.full_path)
  match parseDoc asset.read with
  | .error e => .error e
  | .ok root =>
    let root1 := updateRootAttrs root (nsAttrUpdates book)
    match book.chapters.find? (fun c => asset.url == c.content_url) with
    | none => .error .stopIteration
    | some chapter =>
      match mkCssLinks book pre chapter.stylesheets with
      | .error e => .error e
      | .ok links =>
        let root2 := insertFirstChild root1 (chapterHead book asset chapter links)
        foldRules book.files pre (chapterRules cfg) root2

/-- The full chapter branch: rewrite, then the safety-net scan, which
raises `RuntimeError` naming the first offending element; on success the
asset's `read` becomes the serialized rewritten tree. -/
def patchChapter (cfg : Config) (book : Book) (asset : Asset) :
    Except PErr (Asset × Option Asset) :=
  match chapterRewritten cfg book asset with
  | .error e => .error e
  | .ok root3 =>
    match findViol (violAttr (chapterRules cfg)) root3 with
    | some e => .error (.notLocalized e)
    | none => .ok ({ asset with read := .doc root3 }, none)

/-- Selection `//item[@href]` of the manifest branch. -/
def manifestSel (tag : String) (a : List (String × String)) : Bool :=
  tag == "item" && (getAttr a "href").isSome

/-- The manifest branch: insert the provenance comment first, then for
every `item[@href]` resolve the href against the asset list by exact
`full_path` match (`StopIteration` when absent) and, when woff2
transcoding is on, substitute the font extension in the resolved path. -/
def patchManifest (cfg : Config) (book : Book) (asset : Asset) :
    Except PErr (Asset × Option Asset) :=
  match parseDoc asset.read with
  | .error e => .error e
  | .ok root =>
    let root1 := insertFirstChild root (.comment "Prepared with: https://tinyl.io/Abuc")
    match mapMatching manifestSel
        (fun a =>
          match getAttr a "href" with
          | none => .ok a
          | some href =>
            match book.assets.find? (fun it => it.full_path == href) with
            | none => .error .stopIteration
            | some file =>
              if cfg.woff2 then .ok (setAttr a "href" (woffSub file.full_path))
              else .ok a)
        root1 with
    | .error e => .error e
    | .ok root2 => .ok ({ asset with read := .doc root2 }, none)

/-- Embedding of `_patch`: dispatch in source order.  The result is the
(possibly mutated) asset paired with the optional extra asset the call
returns.  In the stylesheet branch membership can only hold if the
css-map set holds an equal string, and then the Python code indexes the
set (`css_map[...]`), a `TypeError`.  In the font branch the asset is
marked inactive, its bytes are written to the scratch path, the external
transcoder must exit 0 (`AssertionError` otherwise), and the replacement
asset is returned. -/
def _patch (cfg : Config) (book : Book) (asset : Asset) :
    Except PErr (Asset × Option Asset) :=
  if asset.kind == "image" then .ok (asset, none)
  else if asset.kind == "stylesheet" then
    (if cfg.cssMapSet.any (pyStrEqJson asset.full_path) then .error .typeError
     else .ok (asset, none))
  else if cfg.woff2 && (fontPaths book).contains asset.full_path then
    (if cfg.woff2_returncode == 0 then
      .ok ({ asset with inactive := some true }, some (mkWoff asset))
     else .error .assertionError)
  else if asset.kind == "chapter" then patchChapter cfg book asset
  else if asset.kind == "other_asset" &&
      asset.media_type == "application/oebps-package+xml" then
    patchManifest cfg book asset
  else .ok (asset, none)

/-! ## The run pipeline (`run`, lines 361-376) -/

/-- The fixed mimetype marker asset (`generate_epub_mimetype`). -/
def generate_epub_mimetype : Asset :=
  { kind := "", url := "", ourn := "", full_path := "../mimetype",
    filename := "", filename_ext := "", media_type := "", content := "",
    encoding := "", read := .bytes "application/epub+zip", inactive := none }

/-- The container-descriptor XML pointing at the manifest's package path. -/
def containerDoc (opfPath : String) : XTree :=
  .elem "container"
    [("xmlns", "urn:oasis:names:tc:opendocument:xmlns:container"),
     ("version", "1.0")]
    (.cons (.elem "rootfiles" []
        (.cons (.elem "rootfile"
            [("full-path", "EPUB/" ++ opfPath),
             ("media-type", "application/oebps-package+xml")] .nil) .nil)) .nil)

/-- `generate_epub_container`: locate the package descriptor among the
assets (first `.opf` asset of the package media type; `StopIteration`
when absent) and emit the container asset. -/
def generate_epub_container (assets : List Asset) : Except PErr Asset :=
  match assets.find? (fun it =>
      it.media_type == "application/oebps-package+xml" &&
      strEnds it.full_path ".opf") with
  | none => .error .stopIteration
  | some opf =>
    .ok { kind := "", url := "", ourn := "",
          full_path := "../META-INF/container.xml",
          filename := "", filename_ext := "", media_type := "", content := "",
          encoding := "", read := .doc (containerDoc opf.full_path),
          inactive := none }

/-- Patch every asset of the book (the `asyncio.gather` over `_patch`
tasks; results collected in task order, any failure aborting the whole
step).  Each asset is patched against the pre-patch book: concurrent
sibling patches only ever mutate fields (`read`, `inactive`) that no
other patch reads. -/
def patchResults (cfg : Config) (book : Book) :
    List Asset → Except PErr (List (Asset × Option Asset))
  | [] => .ok []
  | a :: rest =>
    match _patch cfg book a with
    | .error e => .error e
    | .ok r =>
      match patchResults cfg book rest with
      | .error e => .error e
      | .ok rs => .ok (r :: rs)

/-- `book.assets += [item for item in gather(...) if item]`: the mutated
originals, in order, followed by the non-`None` returned assets. -/
def patchAll (cfg : Config) (book : Book) : Except PErr (List Asset) :=
  match patchResults cfg book book.assets with
  | .error e => .error e
  | .ok rs => .ok (rs.map Prod.fst ++ rs.filterMap Prod.snd)

/-- The persistence filter `'inactive' not in asset.__dict__`: an asset is
written exactly when the attribute is absent, whatever its value. -/
def writtenAssets (assets : List Asset) : List Asset :=
  assets.filter (fun a => a.inactive.isNone)

/-- The output path `{root}/EPUB/{asset.full_path}` (the per-run `root`
directory elided). -/
def outPath (a : Asset) : String := "EPUB/" ++ a.full_path

/-- The files the save loop writes: path and content of every non-inactive
asset. -/
def savedFiles (assets : List Asset) : List (String × AData) :=
  (writtenAssets assets).map (fun a => (outPath a, a.read))

/-- The patch-and-save portion of `run`: patch all assets, append the
container descriptor (computed from the patched list) and the mimetype
marker, then save. -/
def runPipeline (cfg : Config) (book : Book) :
    Except PErr (List Asset × List (String × AData)) :=
  match patchAll cfg book with
  | .error e => .error e
  | .ok assets1 =>
    match generate_epub_container assets1 with
    | .error e => .error e
    | .ok container =>
      .ok (assets1 ++ [container, generate_epub_mimetype],
           savedFiles (assets1 ++ [container, generate_epub_mimetype]))

/-! ## Auxiliary notions used by the claim statements -/

/-- A reference the rewrite loop must fail on: an element of the rule's
tag whose rule attribute holds a scheme-less value with a nonempty path
whose basename matches no file record. -/
def BadRef (files : List FileRec) (rule : Rule) (tag : String)
    (a : List (String × String)) : Prop :=
  tag = rule.tag ∧ ∃ v, getAttr a rule.name = some v ∧
    (urlparse v).path ≠ "" ∧ (urlparse v).scheme = "" ∧
    files.find? (fun f => f.filename == basename (urlparse v).path) = none

/-- The total per-item href substitution the manifest branch performs when
every href resolves: with woff2 transcoding on, the href's font extension
is substituted; otherwise nothing changes. -/
def manifestHrefSub (w : Bool) (a : List (String × String)) :
    List (String × String) :=
  match getAttr a "href" with
  | none => a
  | some href => if w then setAttr a "href" (woffSub href) else a

/-! ## Concrete fixtures used by the witnesses -/

/-- A configuration with every feature off. -/
def plainCfg : Config :=
  { woff2 := false, cssMapSet := [], extra_attrs := [], woff2_returncode := 0 }

/-- A configuration with woff2 transcoding on (and a transcoder that
exits 0). -/
def woffCfg : Config :=
  { woff2 := true, cssMapSet := [], extra_attrs := [], woff2_returncode := 0 }

/-- A package-descriptor asset whose document holds one `item` pointing at
the descriptor itself. -/
def opfAsset : Asset :=
  { kind := "other_asset", url := "https://api.example/opf", ourn := "o",
    full_path := "content.opf", filename := "content.opf",
    filename_ext := "opf", media_type := "application/oebps-package+xml",
    content := "application/oebps-package+xml", encoding := "utf-8",
    read := .doc (.elem "package" []
      (.cons (.elem "item" [("href", "content.opf")] .nil) .nil)),
    inactive := none }

/-- A book holding only the package descriptor. -/
def opfBook : Book :=
  { language := "en", chapters := [], files := [], assets := [opfAsset] }

/-- A TrueType font asset. -/
def fontAsset : Asset :=
  { kind := "font", url := "https://api.example/f.ttf", ourn := "urn:f.ttf",
    full_path := "fonts/f.ttf", filename := "f.ttf", filename_ext := "ttf",
    media_type := "font/ttf", content := "font/ttf", encoding := "utf-8",
    read := .bytes "TTFBYTES", inactive := none }

/-- A book holding only the font asset. -/
def fontBook : Book :=
  { language := "en", chapters := [], files := [], assets := [fontAsset] }

/-- The patched asset list of the font book (computed by evaluation). -/
def fontPatched : List Asset :=
  ((patchAll woffCfg fontBook).toOption.getD [])

/-- A chapter asset whose markup holds an anchor to a basename absent from
the file index. -/
def badChapterAsset : Asset :=
  { kind := "chapter", url := "https://api.example/ch1", ourn := "urn:ch1",
    full_path := "ch1.html", filename := "ch1.html", filename_ext := "html",
    media_type := "text/html", content := "text/html", encoding := "utf-8",
    read := .doc (.elem "html" []
      (.cons (.elem "body" []
        (.cons (.elem "a" [("href", "missing.png")] .nil) .nil)) .nil)),
    inactive := none }

/-- A book for the missing-reference chapter: the chapter record matches,
the file index does not hold `missing.png`. -/
def badChapterBook : Book :=
  { language := "en",
    chapters := [⟨"https://api.example/ch1", "Chapter One", []⟩],
    files := [⟨"other.png", "images/other.png", "https://api.example/other.png"⟩],
    assets := [badChapterAsset] }

/-- A chapter asset whose markup carries a remote-relative reference on an
element outside the configured rule set (`p[@href]` is not rewritten but
is caught by the safety net). -/
def violChapterAsset : Asset :=
  { kind := "chapter", url := "https://api.example/ch2", ourn := "urn:ch2",
    full_path := "ch2.html", filename := "ch2.html", filename_ext := "html",
    media_type := "text/html", content := "text/html", encoding := "utf-8",
    read := .doc (.elem "html" []
      (.cons (.elem "p" [("href", "/x")] .nil) .nil)),
    inactive := none }

/-- A book for the safety-net chapter. -/
def violChapterBook : Book :=
  { language := "en",
    chapters := [⟨"https://api.example/ch2", "Chapter Two", []⟩],
    files := [], assets := [violChapterAsset] }

/-- The rewritten (pre-scan) tree of the safety-net chapter: namespace
attributes on the root, the built head first, the untouched `p` element
last. -/
def violChapterRoot : XTree :=
  .elem "html"
    [("lang", "en"), ("xml:lang", "en"),
     ("xmlns", "http://www.w3.org/1999/xhtml"),
     ("xmlns:epub", "http://www.idpf.org/2007/ops")]
    (.cons (.elem "head" []
      (.cons (.elem "meta"
        [("http-equiv", "Content-Type"),
         ("content", "text/html; charset=utf-8"),
         ("lang", "en"), ("xml:lang", "en")] .nil)
        (.cons (.elem "title" [] (.cons (.textNode "Chapter Two") .nil)) .nil)))
      (.cons (.elem "p" [("href", "/x")] .nil) .nil))

/-- The final asset list of the one-manifest book's run (computed by
evaluation). -/
def opfRunAssets : List Asset :=
  ((runPipeline plainCfg opfBook).toOption.getD ([], [])).1

/-- The saved files of the one-manifest book's run (computed by
evaluation). -/
def opfRunSaved : List (String × AData) :=
  ((runPipeline plainCfg opfBook).toOption.getD ([], [])).2

/-- A stylesheet asset. -/
def styleAsset : Asset :=
  { kind := "stylesheet", url := "https://api.example/s.css", ourn := "urn:s",
    full_path := "css/s.css", filename := "s.css", filename_ext := "css",
    media_type := "text/css", content := "text/css", encoding := "utf-8",
    read := .bytes "body {}", inactive := none }

/-! ## Theorems -/

/-- C1: for every chain of page envelopes in which each page's `next`
points to the following page and the last page's `next` is null,
`retrieve_json` returns the concatenation of all pages' `results` lists in
page order (for a single page with null `next`, exactly that page's
`results`), given enough fuel for the chain's length. -/
theorem retrieve_json_concat_chain (net : String → Option PyJson)
    (chain : List (String × PageEnv)) (u : String) (p : PageEnv) (fuel : Nat)
    (hwf : chainWF net ((u, p) :: chain)) (hfuel : chain.length < fuel) :
    retrieve_json net fuel u =
      some (.list (((u, p) :: chain).map (fun q => q.2.results)).flatten) := by
  induction chain generalizing u p fuel with
  | nil =>
    obtain ⟨hnet, hnext, -⟩ := hwf
    match fuel, hfuel with
    | fuel + 1, _ =>
      simp only [retrieve_json, hnet]
      have henv : isEnvelopeKeys
          [("count", p.count), ("next", p.next), ("previous", p.previous),
           ("results", PyJson.list p.results)] = true := rfl
      simp only [PageEnv.toJson, henv, if_true]
      have hl : dictLookup
          [("count", p.count), ("next", p.next), ("previous", p.previous),
           ("results", PyJson.list p.results)] "next" = some p.next := rfl
      have hr : dictLookup
          [("count", p.count), ("next", p.next), ("previous", p.previous),
           ("results", PyJson.list p.results)] "results" =
          some (PyJson.list p.results) := rfl
      simp only [hl, hr]
      rw [hnext]
      simp [pyFalsy]
  | cons q rest ih =>
    obtain ⟨hnet, ⟨hnext, hne⟩, hwfr⟩ := hwf
    match fuel, hfuel with
    | fuel + 1, hfuel =>
      simp only [retrieve_json, hnet]
      have henv : isEnvelopeKeys
          [("count", p.count), ("next", p.next), ("previous", p.previous),
           ("results", PyJson.list p.results)] = true := rfl
      simp only [PageEnv.toJson, henv, if_true]
      have hl : dictLookup
          [("count", p.count), ("next", p.next), ("previous", p.previous),
           ("results", PyJson.list p.results)] "next" = some p.next := rfl
      have hr : dictLookup
          [("count", p.count), ("next", p.next), ("previous", p.previous),
           ("results", PyJson.list p.results)] "results" =
          some (PyJson.list p.results) := rfl
      simp only [hl, hr]
      rw [hnext]
      have hfalsy : pyFalsy (PyJson.str q.1) = false := by
        rw [pyFalsy, Bool.eq_false_iff]
        intro h
        exact hne ((String.isEmpty_iff q.1).mp h)
      rw [hfalsy]
      simp only [Bool.false_eq_true, if_false]
      have hrec := ih q.1 q.2 fuel (by rw [← Prod.mk.eta (p := q)] at hwfr; exact hwfr)
        (by simp only [List.length_cons] at hfuel; omega)
      rw [hrec]
      simp [pyAdd]

/-- Witness for C1 at a concrete two-page chain. -/
theorem retrieve_json_concat_chain_witness :
    retrieve_json demoNet 2 "page1" =
      some (.list [.str "r1", .str "r2", .str "r3"]) := by
  have h := retrieve_json_concat_chain demoNet
    [("page2", ⟨.num 3, .null, .str "page1", [.str "r3"]⟩)] "page1"
    ⟨.num 3, .str "page2", .null, [.str "r1", .str "r2"]⟩ 2
    ⟨rfl, ⟨rfl, by decide⟩, rfl, rfl, trivial⟩ (by decide)
  simpa using h

example : urlparse "missing.png" = ⟨"", "", "missing.png", "", "", ""⟩ := by decide
example : urlparse "https://example.com/x?q=1#f" =
    ⟨"https", "example.com", "/x", "", "q=1", "f"⟩ := by decide
example : urlparse "#frag" = ⟨"", "", "", "", "", "frag"⟩ := by decide
example : urlparse "mailto:joe" = ⟨"mailto", "", "joe", "", "", ""⟩ := by decide
example : urlparse "1a:b" = ⟨"", "", "1a:b", "", "", ""⟩ := by decide
example : urlparse "foo;p=1/bar;q=2" =
    ⟨"", "", "foo;p=1/bar", "q=2", "", ""⟩ := by decide
example : urlunparse ⟨"", "", "a/b.png", "", "x=1", "y"⟩ = "a/b.png?x=1#y" := by
  decide

mutual
/-- If a selected element on which `f` fails occurs in `t`, the matching
rewrite of `t` cannot succeed. -/
theorem mapMatching_err_of_occurs {E : Type} (sel : String → List (String × String) → Bool)
    (f : List (String × String) → Except E (List (String × String)))
    {s t : XTree} (ho : Occurs s t) (tag : String) (a : List (String × String))
    (cs : XForest) (hs : s = .elem tag a cs) (hsel : sel tag a = true)
    (herr : ∀ a2, f a ≠ .ok a2) : ∀ r, mapMatching sel f t ≠ .ok r := by
  cases ho with
  | refl =>
    subst hs
    intro r hr
    rw [mapMatching, hsel, if_pos rfl] at hr
    cases hf : f a with
    | error e => rw [hf] at hr; cases hr
    | ok a2 => exact herr a2 hf
  | child tag2 attrs2 hof =>
    intro r hr
    rw [mapMatching] at hr
    cases hif : (if sel tag2 attrs2 then f attrs2 else Except.ok attrs2) with
    | error e => rw [hif] at hr; cases hr
    | ok a2 =>
      rw [hif] at hr
      cases hcs : mapMatchingF sel f _ with
      | error e => rw [hcs] at hr; cases hr
      | ok cs2 => exact mapMatchingF_err_of_occursF sel f hof tag a cs hs hsel herr cs2 hcs

/-- Forest version of `mapMatching_err_of_occurs`. -/
theorem mapMatchingF_err_of_occursF {E : Type} (sel : String → List (String × String) → Bool)
    (f : List (String × String) → Except E (List (String × String)))
    {s : XTree} {cs0 : XForest} (ho : OccursF s cs0) (tag : String)
    (a : List (String × String)) (cs : XForest) (hs : s = .elem tag a cs)
    (hsel : sel tag a = true) (herr : ∀ a2, f a ≠ .ok a2) :
    ∀ r, mapMatchingF sel f cs0 ≠ .ok r := by
  cases ho with
  | head rest hoc =>
    intro r hr
    rw [mapMatchingF] at hr
    cases hc : mapMatching sel f _ with
    | error e => rw [hc] at hr; cases hr
    | ok c2 => exact mapMatching_err_of_occurs sel f hoc tag a cs hs hsel herr c2 hc
  | tail c hof =>
    intro r hr
    rw [mapMatchingF] at hr
    cases hc : mapMatching sel f c with
    | error e => rw [hc] at hr; cases hr
    | ok c2 =>
      rw [hc] at hr
      cases hcs : mapMatchingF sel f _ with
      | error e => rw [hcs] at hr; cases hr
      | ok cs2 => exact mapMatchingF_err_of_occursF sel f hof tag a cs hs hsel herr cs2 hcs
end

mutual
/-- When `f` agrees with the total `g` on every selected element occurring
in `t`, the matching rewrite succeeds and equals the total rewrite. -/
theorem mapMatching_ok_total {E : Type} (sel : String → List (String × String) → Bool)
    (f : List (String × String) → Except E (List (String × String)))
    (g : List (String × String) → List (String × String)) :
    ∀ t : XTree,
      (∀ tag a cs, Occurs (.elem tag a cs) t → sel tag a = true → f a = .ok (g a)) →
      mapMatching sel f t = .ok (tmapMatching sel g t)
  | .elem tag a cs, h => by
    rw [mapMatching, tmapMatching]
    have hcs : mapMatchingF sel f cs = .ok (tmapMatchingF sel g cs) :=
      mapMatchingF_ok_total sel f g cs
        (fun tg a2 cs2 hoc hsel => h tg a2 cs2 (Occurs.child tag a hoc) hsel)
    cases hsel : sel tag a with
    | true =>
      rw [if_pos rfl, h tag a cs (Occurs.refl _) hsel, hcs]
      rw [if_pos rfl]
    | false =>
      rw [if_neg (by simp), hcs]
      rw [if_neg (by simp)]
  | .comment s, _ => rfl
  | .textNode s, _ => rfl

/-- Forest version of `mapMatching_ok_total`. -/
theorem mapMatchingF_ok_total {E : Type} (sel : String → List (String × String) → Bool)
    (f : List (String × String) → Except E (List (String × String)))
    (g : List (String × String) → List (String × String)) :
    ∀ cs0 : XForest,
      (∀ tag a cs, OccursF (.elem tag a cs) cs0 → sel tag a = true → f a = .ok (g a)) →
      mapMatchingF sel f cs0 = .ok (tmapMatchingF sel g cs0)
  | .nil, _ => rfl
  | .cons c cs, h => by
    rw [mapMatchingF, tmapMatchingF]
    rw [mapMatching_ok_total sel f g c
      (fun tg a2 cs2 hoc hsel => h tg a2 cs2 (OccursF.head cs hoc) hsel)]
    rw [mapMatchingF_ok_total sel f g cs
      (fun tg a2 cs2 hoc hsel => h tg a2 cs2 (OccursF.tail c hoc) hsel)]
end

mutual
/-- A property of selected elements that `f` can only preserve (or fail
on) survives a successful matching rewrite: some element satisfying it
still occurs in the result, with its tag intact. -/
theorem mapMatching_preserves {E : Type} (sel : String → List (String × String) → Bool)
    (f : List (String × String) → Except E (List (String × String)))
    (P : String → List (String × String) → Prop)
    (hP : ∀ tag a, P tag a → sel tag a = true → ∀ a2, f a = .ok a2 → P tag a2)
    {s t t2 : XTree} (ho : Occurs s t) (tag : String) (a : List (String × String))
    (cs : XForest) (hs : s = .elem tag a cs) (hPa : P tag a)
    (hok : mapMatching sel f t = .ok t2) :
    ∃ a2 cs2, Occurs (.elem tag a2 cs2) t2 ∧ P tag a2 := by
  cases ho with
  | refl =>
    subst hs
    rw [mapMatching] at hok
    cases hif : (if sel tag a then f a else Except.ok a) with
    | error e => rw [hif] at hok; cases hok
    | ok a2 =>
      rw [hif] at hok
      cases hcs : mapMatchingF sel f cs with
      | error e => rw [hcs] at hok; cases hok
      | ok cs2 =>
        rw [hcs] at hok
        cases hok
        refine ⟨a2, cs2, Occurs.refl _, ?_⟩
        cases hsel : sel tag a with
        | true =>
          rw [hsel, if_pos rfl] at hif
          exact hP tag a hPa hsel a2 hif
        | false =>
          rw [hsel] at hif
          simp only [Bool.false_eq_true, if_false, Except.ok.injEq] at hif
          exact hif ▸ hPa
  | child tag2 attrs2 hof =>
    rw [mapMatching] at hok
    cases hif : (if sel tag2 attrs2 then f attrs2 else Except.ok attrs2) with
    | error e => rw [hif] at hok; cases hok
    | ok a2 =>
      rw [hif] at hok
      cases hcs : mapMatchingF sel f _ with
      | error e => rw [hcs] at hok; cases hok
      | ok cs2 =>
        rw [hcs] at hok
        cases hok
        obtain ⟨a3, cs3, hoc, hp3⟩ :=
          mapMatchingF_preserves sel f P hP hof tag a cs hs hPa hcs
        exact ⟨a3, cs3, Occurs.child tag2 a2 hoc, hp3⟩

/-- Forest version of `mapMatching_preserves`. -/
theorem mapMatchingF_preserves {E : Type} (sel : String → List (String × String) → Bool)
    (f : List (String × String) → Except E (List (String × String)))
    (P : String → List (String × String) → Prop)
    (hP : ∀ tag a, P tag a → sel tag a = true → ∀ a2, f a = .ok a2 → P tag a2)
    {s : XTree} {cs0 cs2 : XForest} (ho : OccursF s cs0) (tag : String)
    (a : List (String × String)) (cs : XForest) (hs : s = .elem tag a cs)
    (hPa : P tag a) (hok : mapMatchingF sel f cs0 = .ok cs2) :
    ∃ a2 cs3, OccursF (.elem tag a2 cs3) cs2 ∧ P tag a2 := by
  cases ho with
  | head rest hoc =>
    rw [mapMatchingF] at hok
    cases hc : mapMatching sel f _ with
    | error e => rw [hc] at hok; cases hok
    | ok c2 =>
      rw [hc] at hok
      cases hcs : mapMatchingF sel f rest with
      | error e => rw [hcs] at hok; cases hok
      | ok cs3 =>
        rw [hcs] at hok
        cases hok
        obtain ⟨a3, cs4, hoc2, hp3⟩ :=
          mapMatching_preserves sel f P hP hoc tag a cs hs hPa hc
        exact ⟨a3, cs4, OccursF.head cs3 hoc2, hp3⟩
  | tail c hof =>
    rw [mapMatchingF] at hok
    cases hc : mapMatching sel f c with
    | error e => rw [hc] at hok; cases hok
    | ok c2 =>
      rw [hc] at hok
      cases hcs : mapMatchingF sel f _ with
      | error e => rw [hcs] at hok; cases hok
      | ok cs3 =>
        rw [hcs] at hok
        cases hok
        obtain ⟨a3, cs4, hoc2, hp3⟩ :=
          mapMatchingF_preserves sel f P hP hof tag a cs hs hPa hcs
        exact ⟨a3, cs4, OccursF.tail c2 hoc2, hp3⟩
end

mutual
/-- Whatever `findViol` returns is an element satisfying the predicate. -/
theorem findViol_some_sat (p : String → List (String × String) → Bool) :
    ∀ t e, findViol p t = some e →
      ∃ tag a cs, e = XTree.elem tag a cs ∧ p tag a = true
  | .elem tag a cs, e, h => by
    rw [findViol] at h
    cases hp : p tag a with
    | true =>
      rw [hp, if_pos rfl] at h
      cases h
      exact ⟨tag, a, cs, rfl, hp⟩
    | false =>
      rw [hp] at h
      simp only [Bool.false_eq_true, if_false] at h
      exact findViolF_some_sat p cs e h
  | .comment s, e, h => by rw [findViol] at h; cases h
  | .textNode s, e, h => by rw [findViol] at h; cases h

/-- Forest version of `findViol_some_sat`. -/
theorem findViolF_some_sat (p : String → List (String × String) → Bool) :
    ∀ cs0 e, findViolF p cs0 = some e →
      ∃ tag a cs, e = XTree.elem tag a cs ∧ p tag a = true
  | .nil, e, h => by rw [findViolF] at h; cases h
  | .cons c cs, e, h => by
    rw [findViolF] at h
    cases hc : findViol p c with
    | some e2 =>
      rw [hc] at h
      cases h
      exact findViol_some_sat p c _ hc
    | none =>
      rw [hc] at h
      exact findViolF_some_sat p cs e h
end

mutual
/-- If some element of `t` satisfies the predicate, the scan finds one. -/
theorem findViol_ne_none_of_occurs (p : String → List (String × String) → Bool)
    {s t : XTree} (ho : Occurs s t) (tag : String) (a : List (String × String))
    (cs : XForest) (hs : s = .elem tag a cs) (hp : p tag a = true) :
    findViol p t ≠ none := by
  cases ho with
  | refl =>
    subst hs
    rw [findViol, hp, if_pos rfl]
    simp
  | child tag2 attrs2 hof =>
    rw [findViol]
    cases hp2 : p tag2 attrs2 with
    | true => rw [if_pos rfl]; simp
    | false =>
      simp only [Bool.false_eq_true, if_false]
      exact findViolF_ne_none_of_occursF p hof tag a cs hs hp

/-- Forest version of `findViol_ne_none_of_occurs`. -/
theorem findViolF_ne_none_of_occursF (p : String → List (String × String) → Bool)
    {s : XTree} {cs0 : XForest} (ho : OccursF s cs0) (tag : String)
    (a : List (String × String)) (cs : XForest) (hs : s = .elem tag a cs)
    (hp : p tag a = true) : findViolF p cs0 ≠ none := by
  cases ho with
  | head rest hoc =>
    rw [findViolF]
    cases hc : findViol p _ with
    | some e => simp
    | none => exact absurd hc (findViol_ne_none_of_occurs p hoc tag a cs hs hp)
  | tail c hof =>
    rw [findViolF]
    cases hc : findViol p c with
    | some e => simp
    | none => exact findViolF_ne_none_of_occursF p hof tag a cs hs hp
end

example : woffSub "fonts/a.ttf" = "fonts/a.woff2" := by decide
example : woffSub "font/ttf" = "font.woff2" := by decide
example : woffSub "font/woff2" = "font/woff2" := by decide
example : dotsOfDir (dirname "xhtml/ch01.html") = ".." := by decide
example : dotsOfDir (dirname "a/b/c.html") = "../.." := by decide
example : dotsOfDir (dirname "c.html") = "" := by decide

/-! ## Generic helper lemmas -/

/-- Setting one attribute never changes the lookup of a different key. -/
theorem getAttr_setAttr_ne (a : List (String × String)) (k v k2 : String)
    (h : k ≠ k2) : getAttr (setAttr a k v) k2 = getAttr a k2 := by
  induction a with
  | nil =>
    simp only [setAttr, getAttr, List.find?]
    rw [show (k == k2) = false from beq_eq_false_iff_ne.mpr h]
  | cons kv rest ih =>
    rw [setAttr]
    cases hk : kv.1 == k with
    | true =>
      rw [if_pos rfl]
      have hkeq : kv.1 = k := beq_iff_eq.mp hk
      simp only [getAttr, List.find?_cons]
      rw [show (k == k2) = false from beq_eq_false_iff_ne.mpr h,
        show (kv.1 == k2) = false from beq_eq_false_iff_ne.mpr (hkeq ▸ h)]
    | false =>
      rw [if_neg (by simp)]
      simp only [getAttr, List.find?_cons]
      cases hk2 : kv.1 == k2 with
      | true => rfl
      | false => exact ih

/-- Updating attribute keys that differ from `n` never changes the lookup
of `n`. -/
theorem getAttr_updateAttrs_notin (kvs : List (String × String)) (n : String)
    (h : ∀ kv ∈ kvs, kv.1 ≠ n) :
    ∀ a, getAttr (updateAttrs a kvs) n = getAttr a n := by
  induction kvs with
  | nil => intro a; rfl
  | cons kv rest ih =>
    intro a
    have step : updateAttrs a (kv :: rest) =
        updateAttrs (setAttr a kv.1 kv.2) rest := by
      rw [updateAttrs, updateAttrs, List.foldl_cons]
    rw [step, ih (fun x hx => h x (List.mem_cons_of_mem kv hx))]
    exact getAttr_setAttr_ne a kv.1 kv.2 n (h kv (List.mem_cons_self kv rest))

/-- An element occurring in `t` still occurs (same tag and attributes)
after a child is prepended to `t`'s root. -/
theorem occurs_elem_insert_any {t c : XTree} {tag : String}
    {a : List (String × String)} {cs : XForest}
    (h : Occurs (.elem tag a cs) t) :
    ∃ cs2, Occurs (.elem tag a cs2) (insertFirstChild t c) := by
  cases t with
  | elem rt ra rcs =>
    rw [insertFirstChild]
    cases h with
    | refl => exact ⟨.cons c cs, Occurs.refl _⟩
    | child _ _ hof => exact ⟨cs, Occurs.child rt ra (OccursF.tail c hof)⟩
  | comment s => cases h
  | textNode s => cases h

/-- An element occurring after a comment was prepended to the root already
occurred (same tag and attributes) before. -/
theorem occurs_elem_insert_comment {t : XTree} {str tag : String}
    {a : List (String × String)} {cs : XForest}
    (h : Occurs (.elem tag a cs) (insertFirstChild t (.comment str))) :
    ∃ cs2, Occurs (.elem tag a cs2) t := by
  cases t with
  | elem rt ra rcs =>
    rw [insertFirstChild] at h
    cases h with
    | refl => exact ⟨rcs, Occurs.refl _⟩
    | child _ _ hof =>
      cases hof with
      | head rest hoc => cases hoc
      | tail _ hof2 => exact ⟨cs, Occurs.child rt ra hof2⟩
  | comment s => cases h
  | textNode s => cases h

/-- An element occurring in `t` still occurs after the root's attribute
update, with its attributes either untouched or (for the root itself)
updated. -/
theorem occurs_elem_updateRoot {t : XTree} {tag : String}
    {a : List (String × String)} {cs : XForest}
    (h : Occurs (.elem tag a cs) t) (kvs : List (String × String)) :
    ∃ a2 cs2, Occurs (.elem tag a2 cs2) (updateRootAttrs t kvs) ∧
      (a2 = a ∨ a2 = updateAttrs a kvs) := by
  cases t with
  | elem rt ra rcs =>
    rw [updateRootAttrs]
    cases h with
    | refl => exact ⟨updateAttrs a kvs, cs, Occurs.refl _, Or.inr rfl⟩
    | child _ _ hof => exact ⟨a, cs, Occurs.child rt (updateAttrs ra kvs) hof, Or.inl rfl⟩
  | comment s => cases h
  | textNode s => cases h

/-- Every asset patched in a successful pass contributes its pair to the
collected results. -/
theorem patchResults_mem (cfg : Config) (book : Book) :
    ∀ (l : List Asset) (rs : List (Asset × Option Asset)),
      patchResults cfg book l = .ok rs →
      ∀ a ∈ l, ∃ r ∈ rs, _patch cfg book a = .ok r := by
  intro l
  induction l with
  | nil => intro rs _ a ha; cases ha
  | cons x rest ih =>
    intro rs hok a ha
    rw [patchResults] at hok
    cases hx : _patch cfg book x with
    | error e => rw [hx] at hok; cases hok
    | ok r =>
      rw [hx] at hok
      cases hrest : patchResults cfg book rest with
      | error e => rw [hrest] at hok; cases hok
      | ok rs2 =>
        rw [hrest] at hok
        cases hok
        cases ha with
        | head => exact ⟨r, List.mem_cons_self r rs2, hx⟩
        | tail _ hmem =>
          obtain ⟨r2, hr2, hp2⟩ := ih rs2 hrest a hmem
          exact ⟨r2, List.mem_cons_of_mem r hr2, hp2⟩

/-- The shape of a successfully generated container asset. -/
theorem generate_epub_container_shape (assets : List Asset) (c : Asset)
    (h : generate_epub_container assets = .ok c) :
    c.inactive = none ∧ c.full_path = "../META-INF/container.xml" := by
  rw [generate_epub_container] at h
  cases hf : assets.find? (fun it =>
      it.media_type == "application/oebps-package+xml" &&
      strEnds it.full_path ".opf") with
  | none => rw [hf] at h; cases h
  | some opf => rw [hf] at h; cases h; exact ⟨rfl, rfl⟩

/-- `cssMapEntry` only ever succeeds with a dict. -/
theorem cssMapEntry_dict (item : String) (v : PyJson)
    (h : cssMapEntry item = .ok v) : ∃ kvs, v = PyJson.dict kvs := by
  rw [cssMapEntry] at h
  cases hs : splitChar ':' item.toList with
  | nil => rw [hs] at h; cases h
  | cons k rest =>
    cases rest with
    | nil => rw [hs] at h; cases h
    | cons w rest2 =>
      cases rest2 with
      | nil => rw [hs] at h; cases h; exact ⟨_, rfl⟩
      | cons y rest3 => rw [hs] at h; cases h

/-! ## Claim theorems -/

/-- C10: an asset is excluded from the persisted output exactly when the
`inactive` attribute is present on it, regardless of its value (the
filter is `'inactive' not in asset.__dict__`): an asset carrying
`inactive = False` is excluded just like one carrying `inactive = True`,
and every asset without the attribute is written. -/
theorem saved_iff_inactive_absent (assets : List Asset) (a : Asset) :
    (a ∈ writtenAssets assets ↔ a ∈ assets ∧ a.inactive = none) ∧
    (∀ b : Bool, { a with inactive := some b } ∉ writtenAssets assets) := by
  constructor
  · rw [writtenAssets]
    rw [List.mem_filter]
    rw [Option.isNone_iff_eq_none]
  · intro b hb
    rw [writtenAssets, List.mem_filter] at hb
    cases hb.2

/-- C9: the `__init__` stylesheet-override processing builds a set whose
elements are dicts, so construction succeeds only for an empty css-map
configuration (yielding the empty set); every nonempty configuration
raises before any run reaches the transform stage. -/
theorem css_map_builds_only_empty (items : List String) :
    buildCssMap [] = .ok [] ∧ (items ≠ [] → ∃ e, buildCssMap items = .error e) := by
  refine ⟨rfl, ?_⟩
  intro hne
  cases items with
  | nil => exact absurd rfl hne
  | cons item rest =>
    rw [buildCssMap]
    cases he : cssMapEntry item with
    | error e => exact ⟨e, rfl⟩
    | ok v =>
      obtain ⟨kvs, rfl⟩ := cssMapEntry_dict item v he
      exact ⟨.typeError, rfl⟩

/-- Witness for C9 at the concrete configuration `["a:b"]`. -/
theorem css_map_builds_only_empty_witness :
    buildCssMap [] = .ok [] ∧ ∃ e, buildCssMap ["a:b"] = .error e :=
  ⟨(css_map_builds_only_empty ["a:b"]).1,
   (css_map_builds_only_empty ["a:b"]).2 (by decide)⟩

/-- C3 (code bug): the stylesheet-override feature is documented
(`--css-map`: "Replace CSS files with the provided ones") and `_patch`
indexes the override map as a mapping, but `__init__` builds a set of
dicts, which raises `TypeError` for every nonempty css-map; hence no run
with a configured override reaches patching, and under the only
constructible configuration (the empty set) patching leaves every
stylesheet asset unchanged instead of ever replacing content. -/
theorem css_override_unreachable (cfg : Config) (book : Book) (asset : Asset)
    (hk : asset.kind = "stylesheet") (hempty : cfg.cssMapSet = []) :
    buildCssMap ["EPUB/css/style.css:override.css"] = .error .typeError ∧
    _patch cfg book asset = .ok (asset, none) := by
  refine ⟨rfl, ?_⟩
  simp only [_patch, hk, hempty]
  rfl

/-- Witness for C3 at the concrete stylesheet asset and empty-map
configuration. -/
theorem css_override_unreachable_witness :
    buildCssMap ["EPUB/css/style.css:override.css"] = .error .typeError ∧
    _patch plainCfg opfBook styleAsset = .ok (styleAsset, none) :=
  css_override_unreachable plainCfg opfBook styleAsset rfl rfl

/-- C2 (counterexample): the claim says a scheme-less reference whose
basename matches no file record is left unchanged by the chapter rewrite
step; on the code the step raises `StopIteration` instead
(`next(item for item in book.files if ...)` with no match). -/
theorem rewrite_nonmatching_counterexample :
    patchRefStep [] ".." "missing.png" = .error .stopIteration ∧
    patchRefStep [] ".." "missing.png" ≠ .ok "missing.png" := by
  refine ⟨rfl, ?_⟩
  intro h
  rw [show patchRefStep [] ".." "missing.png" = .error .stopIteration from rfl] at h
  cases h

/-- C2 (amended): the chapter rewrite step leaves a reference unchanged
precisely when it is skipped — the reference has a scheme or an empty
path — and applying the step twice to such a reference is still a no-op;
a scheme-less reference with a nonempty path is either rewritten (when
its basename matches a file record) or a fatal `StopIteration` error
(when it does not), never silently passed through. -/
theorem rewrite_skipped_is_noop (files : List FileRec) (pre : String) (v : String)
    (h : (urlparse v).scheme ≠ "" ∨ (urlparse v).path = "") :
    patchRefStep files pre v = .ok v ∧
    (patchRefStep files pre v).bind (patchRefStep files pre) = .ok v := by
  have hcond : (decide ((urlparse v).path ≠ "") && ((urlparse v).scheme == "")) = false := by
    cases h with
    | inl hs => simp [hs]
    | inr hp => simp [hp]
  have h1 : patchRefStep files pre v = .ok v := by
    rw [patchRefStep]
    rw [if_neg (by rw [hcond]; exact Bool.false_ne_true)]
  exact ⟨h1, by rw [h1]; exact h1⟩

/-- Witness for C2's amended statement at a schemeful reference. -/
theorem rewrite_skipped_is_noop_witness :
    patchRefStep [] ".." "https://example.com/x" = .ok "https://example.com/x" ∧
    (patchRefStep [] ".." "https://example.com/x").bind (patchRefStep [] "..") =
      .ok "https://example.com/x" :=
  rewrite_skipped_is_noop [] ".." "https://example.com/x" (Or.inl (by decide))

/-- C8: the container descriptor and the mimetype marker are appended to
the asset list only after every per-asset transform completed (they are
the last two entries, the container computed from the fully patched
list), and both are always part of the persisted output — neither carries
the `inactive` attribute, so the inactive filter never excludes them. -/
theorem finalizer_appended_and_saved (cfg : Config) (book : Book)
    (assetsF : List Asset) (outs : List (String × AData))
    (h : runPipeline cfg book = .ok (assetsF, outs)) :
    ∃ patched container, patchAll cfg book = .ok patched ∧
      generate_epub_container patched = .ok container ∧
      assetsF = patched ++ [container, generate_epub_mimetype] ∧
      (outPath container, container.read) ∈ outs ∧
      (outPath generate_epub_mimetype, generate_epub_mimetype.read) ∈ outs := by
  cases hp : patchAll cfg book with
  | error e => simp only [runPipeline, hp] at h; cases h
  | ok patched =>
    cases hc : generate_epub_container patched with
    | error e => simp only [runPipeline, hp, hc] at h; cases h
    | ok container =>
      simp only [runPipeline, hp, hc, Except.ok.injEq, Prod.mk.injEq] at h
      obtain ⟨h2, h3⟩ := h
      subst h2
      subst h3
      refine ⟨patched, container, rfl, hc, rfl, ?_, ?_⟩
      · have hin : container.inactive = none :=
          (generate_epub_container_shape patched container hc).1
        simp only [savedFiles, writtenAssets]
        apply List.mem_map.mpr
        refine ⟨container, List.mem_filter.mpr ⟨by simp, ?_⟩, rfl⟩
        rw [hin]
        rfl
      · simp only [savedFiles, writtenAssets]
        apply List.mem_map.mpr
        refine ⟨generate_epub_mimetype, List.mem_filter.mpr ⟨by simp, ?_⟩, rfl⟩
        rfl

/-- Witness for C8 at the one-manifest book. -/
theorem finalizer_appended_and_saved_witness :
    ∃ patched container, patchAll plainCfg opfBook = .ok patched ∧
      generate_epub_container patched = .ok container ∧
      opfRunAssets = patched ++ [container, generate_epub_mimetype] ∧
      (outPath container, container.read) ∈ opfRunSaved ∧
      (outPath generate_epub_mimetype, generate_epub_mimetype.read) ∈ opfRunSaved :=
  finalizer_appended_and_saved plainCfg opfBook opfRunAssets opfRunSaved rfl

/-- C4: with font transcoding enabled (and the transcoder exiting 0),
patching a font asset of a non-compressed font media type returns exactly
one replacement asset whose path, filename and media-type fields have the
old font extension substituted with the woff2 extension, marks the
original inactive — so the persisted-output filter always excludes it
while the replacement is always written — and keeps both the marked
original and the replacement in the in-memory asset list produced by the
patch pass. -/
theorem font_substitution (cfg : Config) (book : Book) (asset : Asset)
    (patched : List Asset)
    (hw : cfg.woff2 = true) (hrc : cfg.woff2_returncode = 0)
    (hk : asset.kind = "font") (hq : fontQual asset = true)
    (hmem : asset ∈ book.assets)
    (hall : patchAll cfg book = .ok patched) :
    _patch cfg book asset =
      .ok ({ asset with inactive := some true }, some (mkWoff asset)) ∧
    (mkWoff asset).full_path = woffSub asset.full_path ∧
    (mkWoff asset).filename = woffSub asset.filename ∧
    (mkWoff asset).media_type = woffSub asset.media_type ∧
    (mkWoff asset).inactive = none ∧
    { asset with inactive := some true } ∈ patched ∧
    mkWoff asset ∈ patched ∧
    (∀ l : List Asset, { asset with inactive := some true } ∉ writtenAssets l) ∧
    (∀ l : List Asset, mkWoff asset ∈ l → mkWoff asset ∈ writtenAssets l) := by
  have hfp : asset.full_path ∈ fontPaths book := by
    apply List.mem_filterMap.mpr
    exact ⟨asset, hmem, by rw [hq]; rfl⟩
  have hcont : (fontPaths book).contains asset.full_path = true :=
    List.elem_iff.mpr hfp
  have hpatch : _patch cfg book asset =
      .ok ({ asset with inactive := some true }, some (mkWoff asset)) := by
    simp only [_patch, hk, hw, hrc, hcont]
    rfl
  refine ⟨hpatch, rfl, rfl, rfl, rfl, ?_, ?_, ?_, ?_⟩
  · rw [patchAll] at hall
    cases hres : patchResults cfg book book.assets with
    | error e => rw [hres] at hall; cases hall
    | ok rs =>
      rw [hres] at hall
      cases hall
      obtain ⟨r, hr, hpr⟩ := patchResults_mem cfg book book.assets rs hres asset hmem
      have hreq : r = ({ asset with inactive := some true }, some (mkWoff asset)) := by
        have := hpr.symm.trans hpatch
        exact Except.ok.inj this
      apply List.mem_append_left
      apply List.mem_map.mpr
      exact ⟨r, hr, by rw [hreq]⟩
  · rw [patchAll] at hall
    cases hres : patchResults cfg book book.assets with
    | error e => rw [hres] at hall; cases hall
    | ok rs =>
      rw [hres] at hall
      cases hall
      obtain ⟨r, hr, hpr⟩ := patchResults_mem cfg book book.assets rs hres asset hmem
      have hreq : r = ({ asset with inactive := some true }, some (mkWoff asset)) := by
        have := hpr.symm.trans hpatch
        exact Except.ok.inj this
      apply List.mem_append_right
      apply List.mem_filterMap.mpr
      exact ⟨r, hr, by rw [hreq]⟩
  · intro l hl
    rw [writtenAssets, List.mem_filter] at hl
    cases hl.2
  · intro l hl
    rw [writtenAssets, List.mem_filter]
    exact ⟨hl, rfl⟩

/-- Witness for C4 at a concrete TrueType font asset. -/
theorem font_substitution_witness :
    _patch woffCfg fontBook fontAsset =
      .ok ({ fontAsset with inactive := some true }, some (mkWoff fontAsset)) ∧
    (mkWoff fontAsset).full_path = woffSub fontAsset.full_path ∧
    (mkWoff fontAsset).filename = woffSub fontAsset.filename ∧
    (mkWoff fontAsset).media_type = woffSub fontAsset.media_type ∧
    (mkWoff fontAsset).inactive = none ∧
    { fontAsset with inactive := some true } ∈ fontPatched ∧
    mkWoff fontAsset ∈ fontPatched ∧
    (∀ l : List Asset, { fontAsset with inactive := some true } ∉ writtenAssets l) ∧
    (∀ l : List Asset, mkWoff fontAsset ∈ l → mkWoff fontAsset ∈ writtenAssets l) :=
  font_substitution woffCfg fontBook fontAsset fontPatched rfl rfl rfl rfl
    (List.mem_singleton.mpr rfl) rfl

/-- C7: when patching the package-descriptor asset, every manifest `item`
element's `href` is resolved against the asset list by exact full-path
match — if every item resolves, patching succeeds with the provenance
comment inserted as the first child and, exactly when font transcoding is
enabled, each resolved href's font extension rewritten to the woff2
extension; if any item fails to resolve, patching is fatal. -/
theorem manifest_patch (cfg : Config) (book : Book) (asset : Asset) (t : XTree)
    (hk : asset.kind = "other_asset")
    (hm : asset.media_type = "application/oebps-package+xml")
    (hfont : (cfg.woff2 && (fontPaths book).contains asset.full_path) = false)
    (hr : asset.read = .doc t) :
    ((∀ tag a cs href, Occurs (.elem tag a cs) t →
        getAttr a "href" = some href → tag = "item" →
        ∃ f ∈ book.assets, f.full_path = href) →
      _patch cfg book asset =
        .ok ({ asset with read := .doc (tmapMatching manifestSel
            (manifestHrefSub cfg.woff2)
            (insertFirstChild t (.comment "Prepared with: https://tinyl.io/Abuc"))) },
          none)) ∧
    (∀ tag a cs href, Occurs (.elem tag a cs) t → tag = "item" →
      getAttr a "href" = some href →
      (∀ f ∈ book.assets, f.full_path ≠ href) →
      ∃ e, _patch cfg book asset = .error e) := by
  have hdisp : _patch cfg book asset = patchManifest cfg book asset := by
    simp only [_patch, hk, hm, hfont]
    rfl
  constructor
  · intro hres
    rw [hdisp]
    have hok : mapMatching manifestSel
        (fun a =>
          match getAttr a "href" with
          | none => Except.ok a
          | some href =>
            match book.assets.find? (fun it => it.full_path == href) with
            | none => Except.error PErr.stopIteration
            | some file =>
              if cfg.woff2 then Except.ok (setAttr a "href" (woffSub file.full_path))
              else Except.ok a)
        (insertFirstChild t (.comment "Prepared with: https://tinyl.io/Abuc")) =
        .ok (tmapMatching manifestSel (manifestHrefSub cfg.woff2)
          (insertFirstChild t (.comment "Prepared with: https://tinyl.io/Abuc"))) := by
      apply mapMatching_ok_total
      intro tag a cs hocc hsel
      obtain ⟨cs2, hocc2⟩ := occurs_elem_insert_comment hocc
      rw [manifestSel] at hsel
      rw [Bool.and_eq_true] at hsel
      obtain ⟨htag, hsome⟩ := hsel
      obtain ⟨href, hhref⟩ := Option.isSome_iff_exists.mp hsome
      obtain ⟨f, hf, hfp⟩ := hres tag a cs2 href hocc2 hhref (beq_iff_eq.mp htag)
      have hfindSome : (book.assets.find? (fun it => it.full_path == href)).isSome := by
        apply List.find?_isSome.mpr
        exact ⟨f, hf, beq_iff_eq.mpr hfp⟩
      obtain ⟨file, hfind⟩ := Option.isSome_iff_exists.mp hfindSome
      have hfile0 : (file.full_path == href) = true := by
        have hps := List.find?_some hfind
        simpa using hps
      have hfile : file.full_path = href := beq_iff_eq.mp hfile0
      simp only [hhref, hfind, manifestHrefSub, hfile]
      cases cfg.woff2 with
      | true => rfl
      | false => rfl
    simp only [patchManifest, hr, parseDoc, hok]
  · intro tag a cs href hocc htag hhref hnone
    rw [hdisp]
    have hfind : book.assets.find? (fun it => it.full_path == href) = none := by
      apply List.find?_eq_none.mpr
      intro x hx
      simp only [Bool.not_eq_true]
      exact beq_eq_false_iff_ne.mpr (hnone x hx)
    obtain ⟨cs2, hocc2⟩ :=
      occurs_elem_insert_any (c := .comment "Prepared with: https://tinyl.io/Abuc") hocc
    have hsel : manifestSel tag a = true := by
      rw [manifestSel, htag]
      simp [hhref]
    have herr := mapMatching_err_of_occurs manifestSel
      (fun a =>
        match getAttr a "href" with
        | none => Except.ok a
        | some href =>
          match book.assets.find? (fun it => it.full_path == href) with
          | none => Except.error PErr.stopIteration
          | some file =>
            if cfg.woff2 then Except.ok (setAttr a "href" (woffSub file.full_path))
            else Except.ok a)
      hocc2 tag a cs2 rfl hsel
      (by
        intro a2 hcon
        simp only [hhref, hfind] at hcon
        cases hcon)
    cases hmm : mapMatching manifestSel
        (fun a =>
          match getAttr a "href" with
          | none => Except.ok a
          | some href =>
            match book.assets.find? (fun it => it.full_path == href) with
            | none => Except.error PErr.stopIteration
            | some file =>
              if cfg.woff2 then Except.ok (setAttr a "href" (woffSub file.full_path))
              else Except.ok a)
        (insertFirstChild t (.comment "Prepared with: https://tinyl.io/Abuc")) with
    | error e =>
      refine ⟨e, ?_⟩
      simp only [patchManifest, hr, parseDoc, hmm]
    | ok r => exact absurd hmm (herr r)

/-- Witness for C7 at the one-item package descriptor. -/
theorem manifest_patch_witness :
    _patch plainCfg opfBook opfAsset =
      .ok ({ opfAsset with read := .doc (tmapMatching manifestSel
          (manifestHrefSub plainCfg.woff2)
          (insertFirstChild
            (.elem "package" []
              (.cons (.elem "item" [("href", "content.opf")] .nil) .nil))
            (.comment "Prepared with: https://tinyl.io/Abuc"))) }, none) := by
  apply (manifest_patch plainCfg opfBook opfAsset
    (.elem "package" []
      (.cons (.elem "item" [("href", "content.opf")] .nil) .nil))
    rfl rfl rfl rfl).1
  intro tag a cs href hocc hhref htag
  cases hocc with
  | refl => simp [getAttr, List.find?] at hhref
  | child _ _ hof =>
    cases hof with
    | head rest hoc =>
      cases hoc with
      | refl =>
        refine ⟨opfAsset, List.mem_singleton.mpr rfl, ?_⟩
        simp [getAttr, List.find?] at hhref
        exact hhref
      | child _ _ hof2 => cases hof2
    | tail _ hof2 => cases hof2

/-- A reference with a nonempty scheme-less path whose basename matches no
file record makes the per-reference rewrite raise `StopIteration`. -/
theorem patchRefStep_err (files : List FileRec) (pre v : String)
    (hp : (urlparse v).path ≠ "") (hs : (urlparse v).scheme = "")
    (hf : files.find? (fun f => f.filename == basename (urlparse v).path) = none) :
    patchRefStep files pre v = .error .stopIteration := by
  simp only [patchRefStep, hs, hf]
  simp [hp]

/-- A rule's rewrite pass cannot succeed on a tree holding a bad reference
for that rule. -/
theorem rewriteRule_err_of_bad (files : List FileRec) (pre : String) (rule : Rule)
    {t : XTree} {tag : String} {a : List (String × String)} {cs : XForest}
    (hocc : Occurs (.elem tag a cs) t) (hbad : BadRef files rule tag a) :
    ∀ r, rewriteRule files pre rule t ≠ .ok r := by
  obtain ⟨htag, v, hv, hpath, hscheme, hfind⟩ := hbad
  apply mapMatching_err_of_occurs (ruleSel rule) _ hocc tag a cs rfl
  · rw [ruleSel, htag]
    simp [hv]
  · intro a2 hcon
    simp only [hv, patchRefStep_err files pre v hpath hscheme hfind] at hcon
    cases hcon

/-- Running the rule passes in order over a tree holding a bad reference
for one of the configured rules must fail. -/
theorem foldRules_err_of_bad (files : List FileRec) (pre : String) (rule : Rule) :
    ∀ (rules : List Rule) (t : XTree), rule ∈ rules →
      (∃ tag a cs, Occurs (.elem tag a cs) t ∧ BadRef files rule tag a) →
      ∃ e, foldRules files pre rules t = .error e := by
  intro rules
  induction rules with
  | nil => intro t hmem; cases hmem
  | cons r rest ih =>
    intro t hmem hbad
    obtain ⟨tag, a, cs, hocc, hb⟩ := hbad
    rw [foldRules]
    cases hrw : rewriteRule files pre r t with
    | error e => exact ⟨e, rfl⟩
    | ok t2 =>
      cases List.mem_cons.mp hmem with
      | inl heq =>
        subst heq
        exact absurd hrw (rewriteRule_err_of_bad files pre rule hocc hb t2)
      | inr hmem2 =>
        have hclosure : ∀ tg aa, BadRef files rule tg aa →
            ruleSel r tg aa = true → ∀ a2,
            (fun a =>
              match getAttr a r.name with
              | none => Except.ok a
              | some v =>
                match patchRefStep files pre v with
                | .error e => Except.error e
                | .ok v2 => Except.ok (setAttr a r.name v2)) aa = .ok a2 →
            BadRef files rule tg a2 := by
          intro tg aa hbb hsel a2 hok2
          obtain ⟨htg, v, hv, hp, hs, hf⟩ := hbb
          by_cases hname : r.name = rule.name
          · rw [hname] at hok2
            simp only [hv, patchRefStep_err files pre v hp hs hf] at hok2
            cases hok2
          · cases hg : getAttr aa r.name with
            | none =>
              simp only [hg] at hok2
              cases hok2
              exact ⟨htg, v, hv, hp, hs, hf⟩
            | some w =>
              simp only [hg] at hok2
              cases hps : patchRefStep files pre w with
              | error e => rw [hps] at hok2; cases hok2
              | ok w2 =>
                rw [hps] at hok2
                cases hok2
                refine ⟨htg, v, ?_, hp, hs, hf⟩
                rw [getAttr_setAttr_ne aa r.name w2 rule.name hname]
                exact hv
        obtain ⟨a2, cs2, hocc2, hb2⟩ :=
          mapMatching_preserves (ruleSel r) _ (BadRef files rule) hclosure
            hocc tag a cs rfl hb hrw
        exact ih t2 hmem2 ⟨tag, a2, cs2, hocc2, hb2⟩

/-- C5: a chapter asset whose markup holds a scheme-less reference (for a
configured rule whose attribute is none of the four root attributes the
transform injects) whose basename is absent from the file index makes
patching fail with an exception — no rewritten output is produced for the
asset. -/
theorem chapter_missing_ref_fatal (cfg : Config) (book : Book) (asset : Asset)
    (t : XTree) (rule : Rule)
    (hk : asset.kind = "chapter")
    (hfont : (cfg.woff2 && (fontPaths book).contains asset.full_path) = false)
    (hr : asset.read = .doc t)
    (hrule : rule ∈ chapterRules cfg)
    (hname : rule.name ∉ ["lang", "xml:lang", "xmlns", "xmlns:epub"])
    (tag : String) (a : List (String × String)) (cs : XForest)
    (hocc : Occurs (.elem tag a cs) t)
    (hbad : BadRef book.files rule tag a) :
    ∃ e, _patch cfg book asset = .error e := by
  have hdisp : _patch cfg book asset = patchChapter cfg book asset := by
    simp only [_patch, hk, hfont]
    rfl
  rw [hdisp]
  have hcr : ∃ e, chapterRewritten cfg book asset = .error e := by
    cases hch : book.chapters.find? (fun c => asset.url == c.content_url) with
    | none =>
      refine ⟨.stopIteration, ?_⟩
      simp only [chapterRewritten, hr, parseDoc, hch]
    | some chapter =>
      cases hcss : mkCssLinks book (dotsOfDir (dirname asset.full_path))
          chapter.stylesheets with
      | error e =>
        refine ⟨e, ?_⟩
        simp only [chapterRewritten, hr, parseDoc, hch, hcss]
      | ok links =>
        obtain ⟨a1, cs1, hocc1, hor⟩ := occurs_elem_updateRoot hocc (nsAttrUpdates book)
        have hns : rule.name ≠ "lang" ∧ rule.name ≠ "xml:lang" ∧
            rule.name ≠ "xmlns" ∧ rule.name ≠ "xmlns:epub" := by
          simp only [List.mem_cons, List.not_mem_nil, or_false, not_or] at hname
          exact hname
        have hbad1 : BadRef book.files rule tag a1 := by
          cases hor with
          | inl he => rw [he]; exact hbad
          | inr he =>
            obtain ⟨htg, v, hv, hp, hs, hf⟩ := hbad
            refine ⟨htg, v, ?_, hp, hs, hf⟩
            rw [he]
            rw [getAttr_updateAttrs_notin (nsAttrUpdates book) rule.name ?hk2 a]
            · exact hv
            case hk2 =>
              intro kv hkv
              simp only [nsAttrUpdates, List.mem_cons, List.not_mem_nil, or_false] at hkv
              rcases hkv with h1 | h1 | h1 | h1
              · rw [h1]; exact fun hc => hns.1 hc.symm
              · rw [h1]; exact fun hc => hns.2.1 hc.symm
              · rw [h1]; exact fun hc => hns.2.2.1 hc.symm
              · rw [h1]; exact fun hc => hns.2.2.2 hc.symm
        obtain ⟨cs3, hocc2⟩ := occurs_elem_insert_any
          (c := chapterHead book asset chapter links) hocc1
        obtain ⟨e, hfold⟩ := foldRules_err_of_bad book.files
          (dotsOfDir (dirname asset.full_path)) rule (chapterRules cfg)
          (insertFirstChild (updateRootAttrs t (nsAttrUpdates book))
            (chapterHead book asset chapter links))
          hrule ⟨tag, a1, cs3, hocc2, hbad1⟩
        refine ⟨e, ?_⟩
        simp only [chapterRewritten, hr, parseDoc, hch, hcss, hfold]
  obtain ⟨e, he⟩ := hcr
  refine ⟨e, ?_⟩
  simp only [patchChapter, he]

/-- Witness for C5 at a chapter anchored to `missing.png` with a file
index not holding that basename. -/
theorem chapter_missing_ref_fatal_witness :
    ∃ e, _patch plainCfg badChapterBook badChapterAsset = .error e :=
  chapter_missing_ref_fatal plainCfg badChapterBook badChapterAsset
    (.elem "html" []
      (.cons (.elem "body" []
        (.cons (.elem "a" [("href", "missing.png")] .nil) .nil)) .nil))
    ⟨"a", "href"⟩ rfl rfl rfl (by decide) (by decide)
    "a" [("href", "missing.png")] .nil
    (Occurs.child "html" [] (OccursF.head _
      (Occurs.child "body" [] (OccursF.head _ (Occurs.refl _)))))
    ⟨rfl, "missing.png", rfl, by decide, rfl, rfl⟩

/-- C6: if, after the rewrite pass, any element in the rewritten subtree
still carries a configured reference attribute whose value starts with a
slash, patching fails with a `RuntimeError` naming a violating element —
the chapter is never emitted with such a reference and the reference is
never auto-corrected. -/
theorem chapter_safety_net (cfg : Config) (book : Book) (asset : Asset)
    (root3 : XTree)
    (hk : asset.kind = "chapter")
    (hfont : (cfg.woff2 && (fontPaths book).contains asset.full_path) = false)
    (hrw : chapterRewritten cfg book asset = .ok root3)
    (tag : String) (a : List (String × String)) (cs : XForest)
    (hocc : Occurs (.elem tag a cs) root3)
    (hviol : violAttr (chapterRules cfg) tag a = true) :
    ∃ e2, _patch cfg book asset = .error (.notLocalized e2) ∧
      ∃ tag2 a2 cs2, e2 = XTree.elem tag2 a2 cs2 ∧
        violAttr (chapterRules cfg) tag2 a2 = true := by
  have hdisp : _patch cfg book asset = patchChapter cfg book asset := by
    simp only [_patch, hk, hfont]
    rfl
  rw [hdisp]
  have hne := findViol_ne_none_of_occurs (violAttr (chapterRules cfg)) hocc
    tag a cs rfl hviol
  cases hfv : findViol (violAttr (chapterRules cfg)) root3 with
  | none => exact absurd hfv hne
  | some e2 =>
    refine ⟨e2, ?_, findViol_some_sat _ root3 e2 hfv⟩
    simp only [patchChapter, hrw, hfv]

/-- Witness for C6 at a chapter whose `p` element keeps a remote-relative
`href` that the (a/img) rewrite rules do not touch. -/
theorem chapter_safety_net_witness :
    ∃ e2, _patch plainCfg violChapterBook violChapterAsset =
        .error (.notLocalized e2) ∧
      ∃ tag2 a2 cs2, e2 = XTree.elem tag2 a2 cs2 ∧
        violAttr (chapterRules plainCfg) tag2 a2 = true :=
  chapter_safety_net plainCfg violChapterBook violChapterAsset violChapterRoot
    rfl rfl rfl
    "p" [("href", "/x")] .nil
    (Occurs.child _ _ (OccursF.tail _ (OccursF.head _ (Occurs.refl _))))
    (by decide)
